import Mathlib

/-!
Verification of the SSD `DecodeDetections` Keras layer
(`src/keras_layers/keras_layer_DecodeDetections.py`).

The layer is embedded shallowly: tensors become nested lists of rationals,
the TensorFlow library calls (`tf.image.non_max_suppression`, `tf.nn.top_k`,
`tf.pad`, `tf.boolean_mask`, `tf.cond`) become the corresponding pure list
functions, and the floating-point exponential is an explicit function
parameter `e` of the model.
-/

namespace SSDDecode

/-- Static configuration of a successfully constructed `DecodeDetections`
layer: the members stored by `__init__` (lines 85-101).  `img_height` and
`img_width` hold the values of the float constants built on lines 99-100,
which exist only when construction succeeded. -/
structure Config where
  confidence_thresh : ℚ
  iou_threshold : ℚ
  top_k : ℕ
  nms_max_output_size : ℕ
  normalize_coords : Bool
  img_height : ℚ
  img_width : ℚ
deriving DecidableEq, Repr

/-- Embeds `tf.constant(x, dtype=tf.float32)` applied to a Python value that
is either a number or `None` (lines 99-100): TensorFlow raises
`ValueError: None values not supported.` when given `None`. -/
def tfConstantFloat : Option ℚ → Except String ℚ
  | some x => Except.ok x
  | none => Except.error "None values not supported."

/-- Embeds `DecodeDetections.__init__` (lines 38-103), assuming the
TensorFlow backend (line 75 passes).  The checks appear in source order:
`normalize_coords` without both image dimensions (line 78), a coordinate
format other than centroids (line 81), and then the conversion of the image
dimensions to float constants (lines 99-100), which fails on `None`. -/
def decodeDetectionsInit (confidence_thresh iou_threshold : ℚ)
    (top_k nms_max_output_size : ℕ) (coords : String) (normalize_coords : Bool)
    (img_height img_width : Option ℚ) : Except String Config :=
  if normalize_coords = true ∧ (img_height = none ∨ img_width = none) then
    Except.error "the decoder needs the image size in order to decode the predictions"
  else if coords ≠ "centroids" then
    Except.error "the DetectionOutput layer currently only supports the centroids coordinate format"
  else
    match tfConstantFloat img_height, tfConstantFloat img_width with
    | Except.ok h, Except.ok w =>
        Except.ok ⟨confidence_thresh, iou_threshold, top_k, nms_max_output_size,
          normalize_coords, h, w⟩
    | Except.error msg, _ => Except.error msg
    | _, Except.error msg => Except.error msg

/-- Whether construction succeeded. -/
def initOk : Except String Config → Bool
  | Except.ok _ => true
  | Except.error _ => false

/-- Python negative indexing `r[-k]` on a per-anchor record, as used on
lines 124-127.  Totalized with default 0: the real slice raises an
out-of-bounds error for records shorter than `k`, so theorems about whole
inputs keep to last dimensions of at least 12, where the two agree. -/
def nthNeg (r : List ℚ) (k : ℕ) : ℚ := r.getD (r.length - k) 0

/-- Embeds step 1 of `DecodeDetections.call` (lines 124-149) for one
per-anchor record `r` of layout `scores ++ [dcx, dcy, dw, dh, cxa, cya, wa,
ha, vcx, vcy, vw, vh]`: offset decoding (lines 124-127), centroids-to-corners
conversion (lines 130-133), the `tf.cond` on `normalize_coords`
(lines 137-146), and the concatenation with the class scores (line 149).
`e` is the floating-point exponential `tf.exp`. -/
def decodeRecord (e : ℚ → ℚ) (cfg : Config) (r : List ℚ) : List ℚ :=
  let cx := nthNeg r 12 * nthNeg r 4 * nthNeg r 6 + nthNeg r 8
  let cy := nthNeg r 11 * nthNeg r 3 * nthNeg r 5 + nthNeg r 7
  let w := e (nthNeg r 10 * nthNeg r 2) * nthNeg r 6
  let h := e (nthNeg r 9 * nthNeg r 1) * nthNeg r 5
  let xmin := cx - 1/2 * w
  let ymin := cy - 1/2 * h
  let xmax := cx + 1/2 * w
  let ymax := cy + 1/2 * h
  r.take (r.length - 12) ++
    (if cfg.normalize_coords then
      [xmin * cfg.img_width, ymin * cfg.img_height,
       xmax * cfg.img_width, ymax * cfg.img_height]
    else [xmin, ymin, xmax, ymax])

/-- Step 1 of `call` applied to the whole batch tensor. -/
def decodeAll (e : ℚ → ℚ) (cfg : Config) (y_pred : List (List (List ℚ))) :
    List (List (List ℚ)) :=
  y_pred.map (fun item => item.map (decodeRecord e cfg))

/-- The zero-padding sentinel row `[class_id, confidence, xmin, ymin, xmax,
ymax] = [0, 0, 0, 0, 0, 0]` produced by `tf.pad` with `constant_values=0.0`
(lines 206, 211-214, 243-246). -/
def zeroRow : List ℚ := [0, 0, 0, 0, 0, 0]

/-- The confidence entry of a 6-element prediction row (`row[1]`). -/
def confOf (row : List ℚ) : ℚ := row.getD 1 0

/-- An axis-aligned box in corner format. -/
structure Box where
  xmin : ℚ
  ymin : ℚ
  xmax : ℚ
  ymax : ℚ

/-- The corner-format box stored in the last four entries of a 6-element
prediction row (lines 189-193). -/
def boxOf (row : List ℚ) : Box := ⟨row.getD 2 0, row.getD 3 0, row.getD 4 0, row.getD 5 0⟩

/-- Intersection over union as computed by `tf.image.non_max_suppression`:
a pair with a box of non-positive area has overlap 0, otherwise the
intersection area divided by the union area. -/
def iou (b1 b2 : Box) : ℚ :=
  let a1 := (b1.xmax - b1.xmin) * (b1.ymax - b1.ymin)
  let a2 := (b2.xmax - b2.xmin) * (b2.ymax - b2.ymin)
  if a1 ≤ 0 ∨ a2 ≤ 0 then 0
  else
    let iw := max 0 (min b1.xmax b2.xmax - max b1.xmin b2.xmin)
    let ih := max 0 (min b1.ymax b2.ymax - max b1.ymin b2.ymin)
    let inter := iw * ih
    inter / (a1 + a2 - inter)

/-- Removes the first row of maximal confidence from a list of rows,
returning it together with the remaining rows in order (ties resolved
toward the earlier row). -/
def extractMax : List (List ℚ) → Option (List ℚ × List (List ℚ))
  | [] => none
  | r :: rs =>
    match extractMax rs with
    | none => some (r, [])
    | some (b, rest) => if confOf r < confOf b then some (b, r :: rest) else some (r, rs)

/-- Greedy non-maximum suppression, the semantics of the
`tf.image.non_max_suppression` call on lines 195-202: repeatedly select the
highest-scoring remaining row and discard every remaining row whose overlap
with it exceeds `thr`, emitting at most `max_output_size` rows. -/
def nmsLoop (thr : ℚ) : ℕ → List (List ℚ) → List (List ℚ)
  | 0, _ => []
  | k + 1, rows =>
    match extractMax rows with
    | none => []
    | some (best, rest) =>
      best :: nmsLoop thr k (rest.filter (fun r => decide (iou (boxOf best) (boxOf r) ≤ thr)))

/-- Python slice `l[-n:]` (total). -/
def lastN (n : ℕ) (l : List ℚ) : List ℚ := l.drop (l.length - n)

/-- Embeds `filter_single_class` (lines 168-216) for one decoded batch item
and one class index: build the `[class_id, confidence, xmin, ymin, xmax,
ymax]` rows (lines 173-177), keep the rows whose confidence strictly
exceeds `confidence_thresh` (lines 180-182), run NMS if any survived and
otherwise produce the single zero row of `no_confident_predictions`
(lines 185-208), and zero-pad to `nms_max_output_size` rows
(lines 211-214). -/
def filter_single_class (cfg : Config) (batch_item : List (List ℚ)) (index : ℕ) :
    List (List ℚ) :=
  let single_class := batch_item.map (fun b => (index : ℚ) :: b.getD index 0 :: lastN 4 b)
  let thresholded := single_class.filter (fun row => decide (cfg.confidence_thresh < confOf row))
  let single_class_nms :=
    if thresholded.isEmpty then [zeroRow]
    else nmsLoop cfg.iou_threshold cfg.nms_max_output_size thresholded
  single_class_nms ++ List.replicate (cfg.nms_max_output_size - single_class_nms.length) zeroRow

/-- Descending order on rows by confidence, the sort order of
`tf.nn.top_k(values, sorted=True)` applied to the confidence column
(lines 240, 248). -/
def rge (a b : List ℚ) : Prop := confOf b ≤ confOf a

instance : DecidableRel rge := fun a b => inferInstanceAs (Decidable (confOf b ≤ confOf a))

instance : IsTotal (List ℚ) rge := ⟨fun a b => le_total (confOf b) (confOf a)⟩

instance : IsTrans (List ℚ) rge := ⟨fun _ _ _ h1 h2 => le_trans h2 h1⟩

/-- The zero-padding of `pad_and_top_k` (lines 243-246): when fewer than
`k` rows are present, append zero rows up to `k`. -/
def padTopK (k : ℕ) (rows : List (List ℚ)) : List (List ℚ) :=
  if k ≤ rows.length then rows else rows ++ List.replicate (k - rows.length) zeroRow

/-- Embeds the `tf.cond` over `top_k` and `pad_and_top_k` (lines 238-251):
both branches gather the `k` rows of largest confidence in descending
order, the second after zero-padding to length `k`. -/
def topKStage (k : ℕ) (rows : List (List ℚ)) : List (List ℚ) :=
  (List.insertionSort rge (padTopK k rows)).take k

/-- The rows of `padTopK k rows` that `topKStage` does not return. -/
def topKdrop (k : ℕ) (rows : List (List ℚ)) : List (List ℚ) :=
  (List.insertionSort rge (padTopK k rows)).drop k

/-- The `tf.map_fn` of `filter_single_class` over the class indices
`tf.range(1, n_classes)` (lines 219-226). -/
def classBlocks (cfg : Config) (nClasses : ℕ) (batch_item : List (List ℚ)) :
    List (List (List ℚ)) :=
  (List.range' 1 (nClasses - 1)).map (fun i => filter_single_class cfg batch_item i)

/-- Embeds `filter_predictions` (lines 165-253) for one decoded batch item:
per-class filtering over classes `1 .. n_classes - 1`, concatenation of the
per-class blocks (line 229), and top-k selection with zero-padding
(lines 238-251). -/
def filter_predictions (cfg : Config) (nClasses : ℕ) (batch_item : List (List ℚ)) :
    List (List ℚ) :=
  topKStage cfg.top_k (classBlocks cfg nClasses batch_item).flatten

/-- The static last dimension of a rank-3 tensor modelled as nested lists. -/
def staticLastDim (t : List (List (List ℚ))) : ℕ := ((t.headD []).headD []).length

/-- Line 158: `n_classes = y_pred.shape[2] - 4`, computed on the decoded
tensor whose records carry the class scores followed by 4 coordinates. -/
def nClassesOf (decoded : List (List (List ℚ))) : ℕ := staticLastDim decoded - 4

/-- Embeds `DecodeDetections.call` (lines 109-265): decode every record
(step 1), then map `filter_predictions` over the batch (lines 256-263). -/
def call (e : ℚ → ℚ) (cfg : Config) (y_pred : List (List (List ℚ))) :
    List (List (List ℚ)) :=
  let decoded := decodeAll e cfg y_pred
  decoded.map (filter_predictions cfg (nClassesOf decoded))

/-! ### Indexing lemmas -/

lemma nthNeg_cons {r : List ℚ} {k : ℕ} (s : ℚ) (hk : k ≤ r.length) :
    nthNeg (s :: r) k = nthNeg r k := by
  unfold nthNeg
  rw [List.length_cons, show r.length + 1 - k = (r.length - k) + 1 from by omega,
    List.getD_cons_succ]

lemma take_sub12_cons {r : List ℚ} (s : ℚ) (hr : 12 ≤ r.length) :
    (s :: r).take ((s :: r).length - 12) = s :: r.take (r.length - 12) := by
  rw [List.length_cons, show r.length + 1 - 12 = (r.length - 12) + 1 from by omega,
    List.take_succ_cons]

lemma decodeRecord_cons (e : ℚ → ℚ) (cfg : Config) (s : ℚ) {r : List ℚ}
    (hr : 12 ≤ r.length) :
    decodeRecord e cfg (s :: r) = s :: decodeRecord e cfg r := by
  unfold decodeRecord
  rw [nthNeg_cons s (by omega), nthNeg_cons s (by omega), nthNeg_cons s (by omega),
    nthNeg_cons s (by omega), nthNeg_cons s (by omega), nthNeg_cons s (by omega),
    nthNeg_cons s (by omega), nthNeg_cons s (by omega), nthNeg_cons s (by omega),
    nthNeg_cons s (by omega), nthNeg_cons s (by omega), nthNeg_cons s (by omega),
    take_sub12_cons s hr, List.cons_append]

lemma nthNeg_append4 (l : List ℚ) (a b c d : ℚ) :
    nthNeg (l ++ [a, b, c, d]) 4 = a ∧ nthNeg (l ++ [a, b, c, d]) 3 = b ∧
    nthNeg (l ++ [a, b, c, d]) 2 = c ∧ nthNeg (l ++ [a, b, c, d]) 1 = d := by
  unfold nthNeg
  have hlen : (l ++ [a, b, c, d]).length = l.length + 4 := by simp
  refine ⟨?_, ?_, ?_, ?_⟩
  · rw [hlen, show l.length + 4 - 4 = l.length + 0 from by omega,
      List.getD_append_right _ _ _ _ (by omega)]
    simp
  · rw [hlen, show l.length + 4 - 3 = l.length + 1 from by omega,
      List.getD_append_right _ _ _ _ (by omega)]
    simp
  · rw [hlen, show l.length + 4 - 2 = l.length + 2 from by omega,
      List.getD_append_right _ _ _ _ (by omega)]
    simp
  · rw [hlen, show l.length + 4 - 1 = l.length + 3 from by omega,
      List.getD_append_right _ _ _ _ (by omega)]
    simp

/-- Claim C2: on a record of layout `scores ++ [offsets, anchors,
variances]`, the decode step computes `cx = dcx * vcx * wa + cxa`,
`cy = dcy * vcy * ha + cya`, `w = exp(dw * vw) * wa`, `h = exp(dh * vh) * ha`,
converts to corners `cx - w/2, cy - h/2, cx + w/2, cy + h/2`, and multiplies
the x coordinates by `img_width` and the y coordinates by `img_height`
exactly when `normalize_coords` is set, passing them through unscaled
otherwise. -/
theorem claim2_decode_formula (e : ℚ → ℚ) (cfg : Config) (scores : List ℚ)
    (dcx dcy dw dh cxa cya wa ha vcx vcy vw vh : ℚ) :
    decodeRecord e cfg
        (scores ++ [dcx, dcy, dw, dh, cxa, cya, wa, ha, vcx, vcy, vw, vh]) =
      scores ++
        (if cfg.normalize_coords then
          [(dcx * vcx * wa + cxa - 1/2 * (e (dw * vw) * wa)) * cfg.img_width,
           (dcy * vcy * ha + cya - 1/2 * (e (dh * vh) * ha)) * cfg.img_height,
           (dcx * vcx * wa + cxa + 1/2 * (e (dw * vw) * wa)) * cfg.img_width,
           (dcy * vcy * ha + cya + 1/2 * (e (dh * vh) * ha)) * cfg.img_height]
        else
          [dcx * vcx * wa + cxa - 1/2 * (e (dw * vw) * wa),
           dcy * vcy * ha + cya - 1/2 * (e (dh * vh) * ha),
           dcx * vcx * wa + cxa + 1/2 * (e (dw * vw) * wa),
           dcy * vcy * ha + cya + 1/2 * (e (dh * vh) * ha)]) := by
  induction scores with
  | nil =>
    unfold decodeRecord nthNeg
    norm_num [List.getD]
  | cons s scores ih =>
    rw [List.cons_append, decodeRecord_cons e cfg s (by simp), ih, List.cons_append]

/-! ### NMS lemmas -/

lemma extractMax_eq_some {rows rest : List (List ℚ)} {b : List ℚ}
    (h : extractMax rows = some (b, rest)) : b ∈ rows ∧ ∀ x ∈ rest, x ∈ rows := by
  induction rows generalizing b rest with
  | nil => simp [extractMax] at h
  | cons r rs ih =>
    cases hm : extractMax rs with
    | none =>
      simp only [extractMax, hm, Option.some.injEq, Prod.mk.injEq] at h
      obtain ⟨rfl, rfl⟩ := h
      exact ⟨List.mem_cons_self .., by simp⟩
    | some p =>
      obtain ⟨b0, rest0⟩ := p
      obtain ⟨hb0, hrest0⟩ := ih hm
      by_cases hlt : confOf r < confOf b0
      · simp only [extractMax, hm, if_pos hlt, Option.some.injEq, Prod.mk.injEq] at h
        obtain ⟨rfl, rfl⟩ := h
        refine ⟨List.mem_cons_of_mem _ hb0, ?_⟩
        intro x hx
        rcases List.mem_cons.mp hx with rfl | hx
        · exact List.mem_cons_self ..
        · exact List.mem_cons_of_mem _ (hrest0 x hx)
      · simp only [extractMax, hm, if_neg hlt, Option.some.injEq, Prod.mk.injEq] at h
        obtain ⟨rfl, rfl⟩ := h
        exact ⟨List.mem_cons_self .., fun x hx => List.mem_cons_of_mem _ hx⟩

lemma nmsLoop_subset (thr : ℚ) (k : ℕ) (rows : List (List ℚ)) :
    ∀ x ∈ nmsLoop thr k rows, x ∈ rows := by
  induction k generalizing rows with
  | zero => simp [nmsLoop]
  | succ k ih =>
    intro x hx
    rw [nmsLoop] at hx
    cases hm : extractMax rows with
    | none => rw [hm] at hx; simp at hx
    | some p =>
      obtain ⟨best, rest⟩ := p
      rw [hm] at hx
      rcases List.mem_cons.mp hx with rfl | hx
      · exact (extractMax_eq_some hm).1
      · exact (extractMax_eq_some hm).2 x (List.mem_of_mem_filter (ih _ x hx))

lemma nmsLoop_length_le (thr : ℚ) (k : ℕ) (rows : List (List ℚ)) :
    (nmsLoop thr k rows).length ≤ k := by
  induction k generalizing rows with
  | zero => simp [nmsLoop]
  | succ k ih =>
    rw [nmsLoop]
    cases extractMax rows with
    | none => simp
    | some p => simpa using ih _

lemma nmsLoop_pairwise (thr : ℚ) (k : ℕ) (rows : List (List ℚ)) :
    List.Pairwise (fun a b => iou (boxOf a) (boxOf b) ≤ thr) (nmsLoop thr k rows) := by
  induction k generalizing rows with
  | zero => simp [nmsLoop]
  | succ k ih =>
    rw [nmsLoop]
    cases extractMax rows with
    | none => simp
    | some p =>
      obtain ⟨best, rest⟩ := p
      refine List.Pairwise.cons ?_ (ih _)
      intro x hx
      have hxf := nmsLoop_subset thr k _ x hx
      exact of_decide_eq_true (List.mem_filter.mp hxf).2

/-- The area and overlap underlying `iou`. -/
lemma iou_comm (b1 b2 : Box) : iou b1 b2 = iou b2 b1 := by
  unfold iou
  by_cases h1 : (b1.xmax - b1.xmin) * (b1.ymax - b1.ymin) ≤ 0 <;>
    by_cases h2 : (b2.xmax - b2.xmin) * (b2.ymax - b2.ymin) ≤ 0 <;>
    simp only [h1, h2, true_or, or_true, if_true, false_or, or_self, if_false,
      ite_true, ite_false, eq_self_iff_true]
  rw [min_comm b1.xmax b2.xmax, max_comm b1.xmin b2.xmin,
    min_comm b1.ymax b2.ymax, max_comm b1.ymin b2.ymin,
    add_comm ((b1.xmax - b1.xmin) * (b1.ymax - b1.ymin))]

/-! ### Membership invariants along the pipeline -/

lemma mem_filter_single_class {cfg : Config} {item : List (List ℚ)} {c : ℕ}
    {row : List ℚ} (h : row ∈ filter_single_class cfg item c) :
    row = zeroRow ∨
      ∃ b ∈ item, row = (c : ℚ) :: b.getD c 0 :: lastN 4 b ∧
        cfg.confidence_thresh < b.getD c 0 := by
  unfold filter_single_class at h
  rcases List.mem_append.mp h with h | h
  · split at h
    · left
      simpa using h
    · right
      have hth := nmsLoop_subset _ _ _ _ h
      have hrow := List.mem_of_mem_filter hth
      have hpred : cfg.confidence_thresh < confOf row :=
        of_decide_eq_true (List.mem_filter.mp hth).2
      obtain ⟨b, hb, rfl⟩ := List.mem_map.mp hrow
      exact ⟨b, hb, rfl, hpred⟩
  · left
    exact List.eq_of_mem_replicate h

lemma mem_topKStage {k : ℕ} {rows : List (List ℚ)} {row : List ℚ}
    (h : row ∈ topKStage k rows) : row ∈ rows ∨ row = zeroRow := by
  unfold topKStage at h
  have h1 : row ∈ List.insertionSort rge (padTopK k rows) :=
    (List.take_sublist _ _).subset h
  have h2 : row ∈ padTopK k rows := (List.perm_insertionSort rge _).subset h1
  unfold padTopK at h2
  split at h2
  · exact Or.inl h2
  · rcases List.mem_append.mp h2 with h2 | h2
    · exact Or.inl h2
    · exact Or.inr (List.eq_of_mem_replicate h2)

lemma mem_flatten_blocks {cfg : Config} {nC : ℕ} {item : List (List ℚ)}
    {row : List ℚ} (h : row ∈ (classBlocks cfg nC item).flatten) :
    ∃ c, 1 ≤ c ∧ c < 1 + (nC - 1) ∧ row ∈ filter_single_class cfg item c := by
  rcases List.mem_flatten.mp h with ⟨bl, hbl, hrow⟩
  rcases List.mem_map.mp hbl with ⟨c, hc, rfl⟩
  exact ⟨c, (List.mem_range'_1.mp hc).1, (List.mem_range'_1.mp hc).2, hrow⟩

lemma mem_filter_predictions {cfg : Config} {nC : ℕ} {item : List (List ℚ)}
    {row : List ℚ} (h : row ∈ filter_predictions cfg nC item) :
    row = zeroRow ∨
      ∃ c, 1 ≤ c ∧ c < 1 + (nC - 1) ∧
        ∃ b ∈ item, row = (c : ℚ) :: b.getD c 0 :: lastN 4 b ∧
          cfg.confidence_thresh < b.getD c 0 := by
  unfold filter_predictions at h
  rcases mem_topKStage h with h | h
  · rcases mem_flatten_blocks h with ⟨c, hc1, hc2, hmem⟩
    rcases mem_filter_single_class hmem with h | ⟨b, hb, hrow, hconf⟩
    · exact Or.inl h
    · exact Or.inr ⟨c, hc1, hc2, b, hb, hrow, hconf⟩
  · exact Or.inl h

lemma getD_map_lt {α β : Type} (f : α → β) (l : List α) (i : ℕ) (hi : i < l.length)
    (d : β) (d0 : α) : (l.map f).getD i d = f (l.getD i d0) := by
  rw [List.getD_eq_getElem _ _ (by simpa using hi), List.getD_eq_getElem _ _ hi,
    List.getElem_map]

lemma call_getD (e : ℚ → ℚ) (cfg : Config) (y : List (List (List ℚ))) (i : ℕ)
    (hi : i < y.length) :
    (call e cfg y).getD i [] =
      filter_predictions cfg (nClassesOf (decodeAll e cfg y))
        ((decodeAll e cfg y).getD i []) := by
  unfold call
  exact getD_map_lt _ _ i (by simpa [decodeAll] using hi) _ _

lemma call_length (e : ℚ → ℚ) (cfg : Config) (y : List (List (List ℚ))) :
    (call e cfg y).length = y.length := by
  simp [call, decodeAll]

lemma mem_call_row {e : ℚ → ℚ} {cfg : Config} {y : List (List (List ℚ))} {i : ℕ}
    {row : List ℚ} (h : row ∈ (call e cfg y).getD i []) :
    row = zeroRow ∨
      ∃ c, 1 ≤ c ∧ c < 1 + (nClassesOf (decodeAll e cfg y) - 1) ∧
        ∃ b ∈ (decodeAll e cfg y).getD i [], row = (c : ℚ) :: b.getD c 0 :: lastN 4 b ∧
          cfg.confidence_thresh < b.getD c 0 := by
  by_cases hi : i < y.length
  · rw [call_getD e cfg y i hi] at h
    exact mem_filter_predictions h
  · rw [List.getD_eq_default _ _ (by rw [call_length]; omega)] at h
    simp at h

/-! ### Concrete sample inputs used by the witnesses -/

/-- Sample exponential for concrete evaluation. -/
def e0 : ℚ → ℚ := fun _ => 1

/-- Sample configuration: threshold 0.1, IoU threshold 0.45, top 3, at most
2 NMS outputs per class, no coordinate normalization. -/
def cfg0 : Config := ⟨1/10, 45/100, 3, 2, false, 1, 1⟩

/-- One anchor record with 2 classes: background score 0.1, class-1 score
0.9, zero offsets, anchor (10, 10, 4, 4), variances (0.1, 0.1, 0.2, 0.2). -/
def rec1 : List ℚ := [1/10, 9/10, 0, 0, 0, 0, 10, 10, 4, 4, 1/10, 1/10, 2/10, 2/10]

/-- Like `rec1` but with class-1 score 0.05, below the 0.1 threshold. -/
def rec2 : List ℚ := [9/10, 1/20, 0, 0, 0, 0, 10, 10, 4, 4, 1/10, 1/10, 2/10, 2/10]

/-! ### Shape lemmas -/

lemma decodeRecord_length (e : ℚ → ℚ) (cfg : Config) (r : List ℚ) :
    (decodeRecord e cfg r).length = r.length - 12 + 4 := by
  unfold decodeRecord
  split <;> simp [List.length_take]

lemma padTopK_length (k : ℕ) (rows : List (List ℚ)) :
    (padTopK k rows).length = max k rows.length := by
  unfold padTopK
  split <;> simp <;> omega

lemma topKStage_length (k : ℕ) (rows : List (List ℚ)) :
    (topKStage k rows).length = k := by
  unfold topKStage
  rw [List.length_take, (List.perm_insertionSort rge _).length_eq, padTopK_length]
  omega

lemma mem_decodeAll_item {e : ℚ → ℚ} {cfg : Config} {y : List (List (List ℚ))}
    {item : List (List ℚ)} (h : item ∈ decodeAll e cfg y) : ∀ b ∈ item, 4 ≤ b.length := by
  rcases List.mem_map.mp h with ⟨item0, _, rfl⟩
  intro b hb
  rcases List.mem_map.mp hb with ⟨r, _, rfl⟩
  rw [decodeRecord_length]
  omega

lemma filter_predictions_shape {cfg : Config} {nC : ℕ} {item : List (List ℚ)}
    (hitem : ∀ b ∈ item, 4 ≤ b.length) :
    (filter_predictions cfg nC item).map List.length = List.replicate cfg.top_k 6 := by
  rw [List.eq_replicate_iff]
  constructor
  · rw [List.length_map]
    exact topKStage_length _ _
  · intro x hx
    rcases List.mem_map.mp hx with ⟨row, hrow, rfl⟩
    rcases mem_filter_predictions hrow with rfl | ⟨c, _, _, b, hb, rfl, _⟩
    · rfl
    · have h4 := hitem b hb
      simp [lastN]
      omega

lemma call_shape (e : ℚ → ℚ) (cfg : Config) (y : List (List (List ℚ))) :
    (call e cfg y).map (List.map List.length) =
      List.replicate y.length (List.replicate cfg.top_k 6) := by
  rw [List.eq_replicate_iff]
  constructor
  · rw [List.length_map, call_length]
  · intro x hx
    rcases List.mem_map.mp hx with ⟨img, himg, rfl⟩
    unfold call at himg
    rcases List.mem_map.mp himg with ⟨item, hitem, rfl⟩
    exact filter_predictions_shape (mem_decodeAll_item hitem)

/-! ### Claim C1: output shape is always (batch_size, top_k, 6) -/

/-- Claim C1: for every configuration and every input tensor, the output of
the decode operation has exactly `y.length` frames of exactly `top_k` rows
of exactly 6 entries each, expressed through the lengths of the nested
lists. -/
theorem claim1_output_shape (e : ℚ → ℚ) (cfg : Config) (y : List (List (List ℚ))) :
    (call e cfg y).map (List.map List.length) =
      List.replicate y.length (List.replicate cfg.top_k 6) :=
  call_shape e cfg y

/-! ### Claim C8: no shape validation happens on invocation -/

lemma confOf_zeroRow : confOf zeroRow = 0 := rfl

lemma confOf_call_row {e : ℚ → ℚ} {cfg : Config} {y : List (List (List ℚ))} {i : ℕ}
    {row : List ℚ} (h : row ∈ (call e cfg y).getD i []) :
    cfg.confidence_thresh < confOf row ∨ confOf row = 0 := by
  rcases mem_call_row h with rfl | ⟨c, _, _, b, _, rfl, hconf⟩
  · exact Or.inr rfl
  · left
    simpa [confOf] using hconf

lemma topKStage_all_zero {k : ℕ} {rows : List (List ℚ)}
    (h : ∀ r ∈ rows, r = zeroRow) : topKStage k rows = List.replicate k zeroRow := by
  rw [List.eq_replicate_iff]
  refine ⟨topKStage_length k rows, ?_⟩
  intro r hr
  rcases mem_topKStage hr with hr | rfl
  · exact h r hr
  · rfl

/-- Claim C3: thresholding keeps exactly the candidates whose confidence is
strictly above `confidence_thresh`.  First part: every output entry with
positive confidence has confidence strictly above the threshold.  Second
part: when no box of an image carries a score above the threshold for any
decodable class, that whole frame consists of zero rows. -/
theorem claim3_thresholding (e : ℚ → ℚ) (cfg : Config) (y : List (List (List ℚ))) :
    (∀ i j, 0 < confOf (((call e cfg y).getD i []).getD j zeroRow) →
      cfg.confidence_thresh < confOf (((call e cfg y).getD i []).getD j zeroRow)) ∧
    (∀ i, i < y.length →
      (∀ b ∈ (decodeAll e cfg y).getD i [],
        ∀ c ∈ List.range' 1 (nClassesOf (decodeAll e cfg y) - 1),
          b.getD c 0 ≤ cfg.confidence_thresh) →
      (call e cfg y).getD i [] = List.replicate cfg.top_k zeroRow) := by
  constructor
  · intro i j h
    by_cases hj : j < ((call e cfg y).getD i []).length
    · have hmem : ((call e cfg y).getD i []).getD j zeroRow ∈ (call e cfg y).getD i [] := by
        rw [List.getD_eq_getElem _ _ hj]
        exact List.getElem_mem ..
      rcases confOf_call_row hmem with hlt | hz
      · exact hlt
      · rw [hz] at h
        exact absurd h (lt_irrefl 0)
    · rw [List.getD_eq_default _ _ (by omega)] at h
      rw [List.getD_eq_default _ _ (by omega)]
      rw [confOf_zeroRow] at h
      exact absurd h (lt_irrefl 0)
  · intro i hi hnone
    rw [call_getD e cfg y i hi]
    unfold filter_predictions
    apply topKStage_all_zero
    intro r hr
    rcases mem_flatten_blocks hr with ⟨c, hc1, hc2, hmem⟩
    rcases mem_filter_single_class hmem with rfl | ⟨b, hb, _, hconf⟩
    · rfl
    · have hle := hnone b hb c (List.mem_range'_1.mpr ⟨hc1, hc2⟩)
      exact absurd hconf (not_lt.mpr hle)

/-- Witness for C3 at concrete inputs: with threshold 0.1, the single
record `rec1` (class-1 score 0.9) yields an output row of confidence above
the threshold, and the single record `rec2` (class-1 score 0.05) yields an
all-zero frame. -/
theorem claim3_witness :
    (0 < confOf (((call e0 cfg0 [[rec1]]).getD 0 []).getD 0 zeroRow) ∧
      cfg0.confidence_thresh < confOf (((call e0 cfg0 [[rec1]]).getD 0 []).getD 0 zeroRow)) ∧
    ((0 : ℕ) < [[rec2]].length ∧
      (∀ b ∈ (decodeAll e0 cfg0 [[rec2]]).getD 0 [],
        ∀ c ∈ List.range' 1 (nClassesOf (decodeAll e0 cfg0 [[rec2]]) - 1),
          b.getD c 0 ≤ cfg0.confidence_thresh) ∧
      (call e0 cfg0 [[rec2]]).getD 0 [] = List.replicate cfg0.top_k zeroRow) :=
  ⟨⟨by with_unfolding_all decide,
    (claim3_thresholding e0 cfg0 [[rec1]]).1 0 0 (by with_unfolding_all decide)⟩,
   ⟨by decide, by with_unfolding_all decide,
    (claim3_thresholding e0 cfg0 [[rec2]]).2 0 (by decide)
      (by with_unfolding_all decide)⟩⟩

/-! ### Claim C5: per-class blocks -/

lemma append_replicate_length {α : Type} (L : List α) (n : ℕ) (z : α)
    (h : L.length ≤ n) : (L ++ List.replicate (n - L.length) z).length = n := by
  simp
  omega

lemma filter_single_class_length {cfg : Config} (item : List (List ℚ)) (c : ℕ)
    (hnms : 1 ≤ cfg.nms_max_output_size) :
    (filter_single_class cfg item c).length = cfg.nms_max_output_size := by
  simp only [filter_single_class]
  split
  · exact append_replicate_length _ _ _ (by simpa using hnms)
  · exact append_replicate_length _ _ _ (nmsLoop_length_le _ _ _)

lemma mem_thresholded {cfg : Config} {item : List (List ℚ)} {c : ℕ} {row : List ℚ}
    (h : row ∈ (item.map (fun b => (c : ℚ) :: b.getD c 0 :: lastN 4 b)).filter
      (fun row => decide (cfg.confidence_thresh < confOf row))) :
    row.headD 0 = (c : ℚ) ∧ cfg.confidence_thresh < confOf row := by
  have h2 : cfg.confidence_thresh < confOf row :=
    of_decide_eq_true (List.mem_filter.mp h).2
  rcases List.mem_map.mp (List.mem_of_mem_filter h) with ⟨b, _, rfl⟩
  exact ⟨rfl, h2⟩

lemma filter_single_class_structure {cfg : Config} (item : List (List ℚ)) (c : ℕ)
    (hnms : 1 ≤ cfg.nms_max_output_size) :
    ∃ m ≤ cfg.nms_max_output_size,
      filter_single_class cfg item c =
        (filter_single_class cfg item c).take m ++
          List.replicate (cfg.nms_max_output_size - m) zeroRow ∧
      ∀ row ∈ (filter_single_class cfg item c).take m,
        row.headD 0 = (c : ℚ) ∧ cfg.confidence_thresh < confOf row := by
  simp only [filter_single_class]
  split
  · refine ⟨0, Nat.zero_le _, ?_, by simp⟩
    simp only [List.take_zero, List.nil_append, Nat.sub_zero, List.length_singleton,
      List.singleton_append]
    rw [← List.replicate_succ]
    congr 1
    omega
  · refine ⟨(nmsLoop cfg.iou_threshold cfg.nms_max_output_size
      ((item.map (fun b => (c : ℚ) :: b.getD c 0 :: lastN 4 b)).filter
        (fun row => decide (cfg.confidence_thresh < confOf row)))).length,
      nmsLoop_length_le _ _ _, ?_, ?_⟩
    · rw [List.take_left]
    · rw [List.take_left]
      intro row hrow
      exact mem_thresholded (nmsLoop_subset _ _ _ _ hrow)

lemma call_row_head (e : ℚ → ℚ) (cfg : Config) (y : List (List (List ℚ)))
    (i j : ℕ) :
    (((call e cfg y).getD i []).getD j zeroRow).headD 0 = 0 ∨
    ∃ c, 1 ≤ c ∧ c < 1 + (nClassesOf (decodeAll e cfg y) - 1) ∧
      (((call e cfg y).getD i []).getD j zeroRow).headD 0 = (c : ℚ) := by
  by_cases hj : j < ((call e cfg y).getD i []).length
  · have hmem : ((call e cfg y).getD i []).getD j zeroRow ∈ (call e cfg y).getD i [] := by
      rw [List.getD_eq_getElem _ _ hj]
      exact List.getElem_mem ..
    rcases mem_call_row hmem with hz | ⟨c, hc1, hc2, b, _, hrow, _⟩
    · left
      rw [hz]
      rfl
    · right
      exact ⟨c, hc1, hc2, by rw [hrow]; rfl⟩
  · left
    rw [List.getD_eq_default _ _ (by omega)]
    rfl

/-- Claim C5: provided `nms_max_output_size ≥ 1` (its documented domain),
every per-class block has exactly `nms_max_output_size` rows, consists of
the real detections of that class (carrying the class id and a confidence
above the threshold) followed by zero-row sentinels, and every class id
appearing in the output lies in `1 .. n_classes - 1` — class 0 never
produces a detection. -/
theorem claim5_per_class_blocks (e : ℚ → ℚ) (cfg : Config)
    (y : List (List (List ℚ))) (item : List (List ℚ)) (c : ℕ)
    (hnms : 1 ≤ cfg.nms_max_output_size) :
    (filter_single_class cfg item c).length = cfg.nms_max_output_size ∧
    (∃ m ≤ cfg.nms_max_output_size,
      filter_single_class cfg item c =
        (filter_single_class cfg item c).take m ++
          List.replicate (cfg.nms_max_output_size - m) zeroRow ∧
      ∀ row ∈ (filter_single_class cfg item c).take m,
        row.headD 0 = (c : ℚ) ∧ cfg.confidence_thresh < confOf row) ∧
    (∀ i j, (((call e cfg y).getD i []).getD j zeroRow).headD 0 = 0 ∨
      ∃ cc, 1 ≤ cc ∧ cc < 1 + (nClassesOf (decodeAll e cfg y) - 1) ∧
        (((call e cfg y).getD i []).getD j zeroRow).headD 0 = (cc : ℚ)) :=
  ⟨filter_single_class_length item c hnms,
   filter_single_class_structure item c hnms,
   fun i j => call_row_head e cfg y i j⟩

/-- Witness for C5 at the concrete configuration `cfg0` and input `rec1`. -/
theorem claim5_witness :
    1 ≤ cfg0.nms_max_output_size ∧
    ((filter_single_class cfg0 [decodeRecord e0 cfg0 rec1] 1).length =
        cfg0.nms_max_output_size ∧
    (∃ m ≤ cfg0.nms_max_output_size,
      filter_single_class cfg0 [decodeRecord e0 cfg0 rec1] 1 =
        (filter_single_class cfg0 [decodeRecord e0 cfg0 rec1] 1).take m ++
          List.replicate (cfg0.nms_max_output_size - m) zeroRow ∧
      ∀ row ∈ (filter_single_class cfg0 [decodeRecord e0 cfg0 rec1] 1).take m,
        row.headD 0 = ((1 : ℕ) : ℚ) ∧ cfg0.confidence_thresh < confOf row) ∧
    (∀ i j, (((call e0 cfg0 [[rec1]]).getD i []).getD j zeroRow).headD 0 = 0 ∨
      ∃ cc, 1 ≤ cc ∧ cc < 1 + (nClassesOf (decodeAll e0 cfg0 [[rec1]]) - 1) ∧
        (((call e0 cfg0 [[rec1]]).getD i []).getD j zeroRow).headD 0 = (cc : ℚ))) :=
  ⟨by decide, claim5_per_class_blocks e0 cfg0 [[rec1]] [decodeRecord e0 cfg0 rec1] 1
    (by decide)⟩

/-! ### Claim C6: top-k selection and ordering -/

lemma topKStage_sorted (k : ℕ) (rows : List (List ℚ)) :
    List.Pairwise rge (topKStage k rows) :=
  List.Pairwise.sublist (List.take_sublist _ _) (List.sorted_insertionSort rge _)

lemma call_out_sorted (e : ℚ → ℚ) (cfg : Config) (y : List (List (List ℚ))) (i : ℕ) :
    List.Pairwise rge ((call e cfg y).getD i []) := by
  by_cases hi : i < y.length
  · rw [call_getD e cfg y i hi]
    exact topKStage_sorted _ _
  · rw [List.getD_eq_default _ _ (by rw [call_length]; omega)]
    exact List.Pairwise.nil

lemma call_out_zeros_last (e : ℚ → ℚ) (cfg : Config) (y : List (List (List ℚ)))
    (i : ℕ) (hth : 0 ≤ cfg.confidence_thresh) :
    List.Pairwise (fun a b => confOf a = 0 → confOf b = 0) ((call e cfg y).getD i []) := by
  refine List.Pairwise.imp_of_mem ?_ (call_out_sorted e cfg y i)
  intro a b _ hb hr hza
  rcases confOf_call_row hb with hlt | hz
  · exfalso
    have hr2 : confOf b ≤ confOf a := hr
    rw [hza] at hr2
    exact absurd (lt_of_lt_of_le (lt_of_le_of_lt hth hlt) hr2) (lt_irrefl 0)
  · exact hz

lemma topKStage_append_drop_perm (k : ℕ) (rows : List (List ℚ)) :
    (topKStage k rows ++ topKdrop k rows).Perm (padTopK k rows) := by
  unfold topKStage topKdrop
  rw [List.take_append_drop]
  exact List.perm_insertionSort rge _

lemma topKStage_drop_le {k : ℕ} {rows : List (List ℚ)} {a b : List ℚ}
    (ha : a ∈ topKStage k rows) (hb : b ∈ topKdrop k rows) : confOf b ≤ confOf a := by
  unfold topKStage at ha
  unfold topKdrop at hb
  have hs : List.Pairwise rge (List.insertionSort rge (padTopK k rows)) :=
    List.sorted_insertionSort rge _
  rw [← List.take_append_drop k (List.insertionSort rge (padTopK k rows))] at hs
  exact (List.pairwise_append.mp hs).2.2 a ha b hb

/-- Claim C6: with the threshold in its documented domain, every output
frame is sorted by non-increasing confidence with all zero-confidence
sentinel rows after the non-zero ones; the top-k stage always returns
exactly `top_k` rows, those rows together with the dropped rows permute
the zero-padded concatenation, and every dropped row has confidence at
most that of every returned row. -/
theorem claim6_top_k_selection (e : ℚ → ℚ) (cfg : Config)
    (y : List (List (List ℚ))) (i : ℕ) (hth : 0 ≤ cfg.confidence_thresh) :
    List.Pairwise rge ((call e cfg y).getD i []) ∧
    List.Pairwise (fun a b => confOf a = 0 → confOf b = 0) ((call e cfg y).getD i []) ∧
    (∀ rows : List (List ℚ), (topKStage cfg.top_k rows).length = cfg.top_k) ∧
    (∀ rows : List (List ℚ),
      (topKStage cfg.top_k rows ++ topKdrop cfg.top_k rows).Perm (padTopK cfg.top_k rows)) ∧
    (∀ rows : List (List ℚ), ∀ a ∈ topKStage cfg.top_k rows,
      ∀ b ∈ topKdrop cfg.top_k rows, confOf b ≤ confOf a) :=
  ⟨call_out_sorted e cfg y i,
   call_out_zeros_last e cfg y i hth,
   fun rows => topKStage_length cfg.top_k rows,
   fun rows => topKStage_append_drop_perm cfg.top_k rows,
   fun _ _ ha _ hb => topKStage_drop_le ha hb⟩

/-- Witness for C6 at the concrete configuration `cfg0` and input `rec1`. -/
theorem claim6_witness :
    (0 : ℚ) ≤ cfg0.confidence_thresh ∧
    (List.Pairwise rge ((call e0 cfg0 [[rec1]]).getD 0 []) ∧
    List.Pairwise (fun a b => confOf a = 0 → confOf b = 0)
      ((call e0 cfg0 [[rec1]]).getD 0 []) ∧
    (∀ rows : List (List ℚ), (topKStage cfg0.top_k rows).length = cfg0.top_k) ∧
    (∀ rows : List (List ℚ),
      (topKStage cfg0.top_k rows ++ topKdrop cfg0.top_k rows).Perm
        (padTopK cfg0.top_k rows)) ∧
    (∀ rows : List (List ℚ), ∀ a ∈ topKStage cfg0.top_k rows,
      ∀ b ∈ topKdrop cfg0.top_k rows, confOf b ≤ confOf a)) :=
  ⟨by with_unfolding_all decide,
   claim6_top_k_selection e0 cfg0 [[rec1]] 0 (by with_unfolding_all decide)⟩

/-! ### Claim C4: greedy NMS separates same-class detections -/

/-- Rows that display the same non-background class id overlap by at most
`thr`. -/
def sameClassSep (thr : ℚ) (a b : List ℚ) : Prop :=
  a.headD 0 = b.headD 0 → a.headD 0 ≠ 0 → iou (boxOf a) (boxOf b) ≤ thr

lemma sameClassSep_symm (thr : ℚ) : Symmetric (sameClassSep thr) := by
  intro a b hab h1 h2
  rw [iou_comm]
  exact hab h1.symm (h1 ▸ h2)

lemma sameClassSep_zero_right (thr : ℚ) (x : List ℚ) : sameClassSep thr x zeroRow :=
  fun h1 h2 => absurd h1 h2

lemma sameClassSep_zero_left (thr : ℚ) (x : List ℚ) : sameClassSep thr zeroRow x :=
  fun _ h2 => absurd rfl h2

lemma block_head {cfg : Config} {item : List (List ℚ)} {c : ℕ} {row : List ℚ}
    (h : row ∈ filter_single_class cfg item c) :
    row.headD 0 = (c : ℚ) ∨ row = zeroRow := by
  rcases mem_filter_single_class h with rfl | ⟨b, _, rfl, _⟩
  · exact Or.inr rfl
  · exact Or.inl rfl

lemma pairwise_sep_block (cfg : Config) (item : List (List ℚ)) (c : ℕ) :
    List.Pairwise (sameClassSep cfg.iou_threshold) (filter_single_class cfg item c) := by
  simp only [filter_single_class]
  rw [List.pairwise_append]
  refine ⟨?_, ?_, ?_⟩
  · split
    · exact List.pairwise_singleton _ _
    · exact (nmsLoop_pairwise _ _ _).imp (fun h _ _ => h)
  · refine List.pairwise_of_forall_mem_list ?_
    intro x hx z hz
    rw [List.eq_of_mem_replicate hz]
    exact sameClassSep_zero_right _ _
  · intro x _ z hz
    rw [List.eq_of_mem_replicate hz]
    exact sameClassSep_zero_right _ _

lemma pairwise_sep_flatten (cfg : Config) (nC : ℕ) (item : List (List ℚ)) :
    List.Pairwise (sameClassSep cfg.iou_threshold)
      ((classBlocks cfg nC item).flatten) := by
  rw [List.pairwise_flatten]
  constructor
  · intro bl hbl
    rcases List.mem_map.mp hbl with ⟨c, _, rfl⟩
    exact pairwise_sep_block cfg item c
  · unfold classBlocks
    rw [List.pairwise_map]
    refine (List.pairwise_lt_range' 1 (nC - 1)).imp ?_
    intro c c2 hlt x hx y hy
    rcases block_head hy with hyc | rfl
    · rcases block_head hx with hxc | rfl
      · intro h1 h2
        exfalso
        rw [hxc, hyc] at h1
        have hcc : c = c2 := Nat.cast_injective h1
        omega
      · exact sameClassSep_zero_left _ _
    · exact sameClassSep_zero_right _ _

lemma pairwise_sep_padTopK {cfg : Config} {k : ℕ} {rows : List (List ℚ)}
    (h : List.Pairwise (sameClassSep cfg.iou_threshold) rows) :
    List.Pairwise (sameClassSep cfg.iou_threshold) (padTopK k rows) := by
  unfold padTopK
  split
  · exact h
  · rw [List.pairwise_append]
    refine ⟨h, ?_, ?_⟩
    · refine List.pairwise_of_forall_mem_list ?_
      intro x hx z hz
      rw [List.eq_of_mem_replicate hz]
      exact sameClassSep_zero_right _ _
    · intro x _ z hz
      rw [List.eq_of_mem_replicate hz]
      exact sameClassSep_zero_right _ _

/-- Claim C4: NMS is greedy suppression of overlaps above `iou_threshold`,
so any two rows of one output frame that display the same non-background
class id overlap by at most `iou_threshold`. -/
theorem claim4_same_class_iou (e : ℚ → ℚ) (cfg : Config)
    (y : List (List (List ℚ))) (i : ℕ) :
    List.Pairwise (sameClassSep cfg.iou_threshold) ((call e cfg y).getD i []) := by
  by_cases hi : i < y.length
  · rw [call_getD e cfg y i hi]
    unfold filter_predictions topKStage
    apply List.Pairwise.sublist (List.take_sublist _ _)
    refine ((List.perm_insertionSort rge _).pairwise_iff
      (fun h => sameClassSep_symm cfg.iou_threshold h)).mpr ?_
    exact pairwise_sep_padTopK (pairwise_sep_flatten cfg _ _)
  · rw [List.getD_eq_default _ _ (by rw [call_length]; omega)]
    exact List.Pairwise.nil

/-! ### Claim C10: decoded boxes from positive anchors are well ordered -/

/-- Claim C10: for an anchor record whose anchor width `r[-6]` and height
`r[-5]` are positive, with a positive exponential and non-negative image
dimensions, the decoded box satisfies `xmin ≤ xmax` and `ymin ≤ ymax`
(the decoded coordinates sit in the last four entries of the record). -/
theorem claim10_decoded_extent (e : ℚ → ℚ) (cfg : Config) (r : List ℚ)
    (hw : 0 < nthNeg r 6) (hh : 0 < nthNeg r 5) (he : ∀ x, 0 < e x)
    (hiw : 0 ≤ cfg.img_width) (hih : 0 ≤ cfg.img_height) :
    nthNeg (decodeRecord e cfg r) 4 ≤ nthNeg (decodeRecord e cfg r) 2 ∧
    nthNeg (decodeRecord e cfg r) 3 ≤ nthNeg (decodeRecord e cfg r) 1 := by
  have hwpos : 0 < e (nthNeg r 10 * nthNeg r 2) * nthNeg r 6 := mul_pos (he _) hw
  have hhpos : 0 < e (nthNeg r 9 * nthNeg r 1) * nthNeg r 5 := mul_pos (he _) hh
  by_cases hn : cfg.normalize_coords
  · simp only [decodeRecord]
    rw [if_pos hn]
    obtain ⟨h4, h3, h2, h1⟩ := nthNeg_append4 (r.take (r.length - 12)) _ _ _ _
    rw [h4, h3, h2, h1]
    constructor
    · exact mul_le_mul_of_nonneg_right (by linarith) hiw
    · exact mul_le_mul_of_nonneg_right (by linarith) hih
  · simp only [decodeRecord]
    rw [if_neg hn]
    obtain ⟨h4, h3, h2, h1⟩ := nthNeg_append4 (r.take (r.length - 12)) _ _ _ _
    rw [h4, h3, h2, h1]
    constructor <;> linarith

/-- Witness for C10 at the concrete record `rec1`. -/
theorem claim10_witness :
    (0 < nthNeg rec1 6 ∧ 0 < nthNeg rec1 5 ∧ (∀ x, 0 < e0 x) ∧
      0 ≤ cfg0.img_width ∧ 0 ≤ cfg0.img_height) ∧
    (nthNeg (decodeRecord e0 cfg0 rec1) 4 ≤ nthNeg (decodeRecord e0 cfg0 rec1) 2 ∧
      nthNeg (decodeRecord e0 cfg0 rec1) 3 ≤ nthNeg (decodeRecord e0 cfg0 rec1) 1) :=
  ⟨⟨by decide, by decide, by intro x; norm_num [ e0], by decide, by decide⟩,
    claim10_decoded_extent e0 cfg0 rec1 (by decide) (by decide) (by intro x; norm_num [ e0])
      (by decide) (by decide)⟩

/-! ### Claim C7: construction does not validate numeric option domains -/

/-- Counterexample to C7: construction succeeds even with
`confidence_thresh = 3/2 ≥ 1`, `top_k = 0` and `nms_max_output_size = 0`,
all outside their documented domains. -/
theorem claim7_counterexample :
    decodeDetectionsInit (3/2) (1/2) 0 0 "centroids" true (some 1) (some 1) =
      Except.ok ⟨3/2, 1/2, 0, 0, true, 1, 1⟩ := by
  rfl

/-- Claim C7 as amended: construction succeeds exactly when the coordinate
format is centroids and both image dimensions are present; no numeric
option is validated against its documented domain. -/
theorem claim7_amended_no_numeric_validation (confidence_thresh iou_threshold : ℚ)
    (top_k nms_max_output_size : ℕ) (coords : String) (normalize_coords : Bool)
    (img_height img_width : Option ℚ) :
    initOk (decodeDetectionsInit confidence_thresh iou_threshold top_k
        nms_max_output_size coords normalize_coords img_height img_width) =
      (decide (coords = "centroids") && img_height.isSome && img_width.isSome) := by
  cases img_height <;> cases img_width <;> cases normalize_coords <;>
    by_cases hc : coords = "centroids" <;>
    simp [decodeDetectionsInit, initOk, tfConstantFloat, hc]

/-! ### Claim C9: image dimensions and normalize_coords at construction -/

/-- Claim C9, evaluated at the failing input: construction with
`normalize_coords = false` and absent image dimensions fails (the
unconditional float-constant conversion of lines 99-100 rejects `None`),
although the claim and the docstring of the layer say it succeeds; the
other half of the claim holds: with `normalize_coords = true`, a missing
dimension raises the configuration error of line 78. -/
theorem claim9_init_none_dims :
    decodeDetectionsInit (1/100) (45/100) 200 400 "centroids" false none none =
      Except.error "None values not supported." ∧
    decodeDetectionsInit (1/100) (45/100) 200 400 "centroids" true none (some 300) =
      Except.error "the decoder needs the image size in order to decode the predictions" ∧
    decodeDetectionsInit (1/100) (45/100) 200 400 "centroids" true (some 300) none =
      Except.error "the decoder needs the image size in order to decode the predictions" :=
  ⟨rfl, rfl, rfl⟩

end SSDDecode
